import Mathlib

/-!
Verification development for the Accudent invoice pipeline
(`parser.py`, `writer.py`, `report_generator.py`).

The Python sources are shallowly embedded: text is `List Char`, monetary
`Decimal` values are exact integer cents (`Int`), Python `datetime` dates are
`Date` records, fallible parsing returns `Option`/`Except`.  Regex scanning is
embedded by explicit left-to-right scanners that reproduce the greedy/lazy
backtracking behaviour of the concrete patterns used by the source.
-/

/-- Python `\s` (ASCII subset, which is all the sources ever meet). -/
def isPySpace (c : Char) : Bool :=
  c = ' ' || c = '\t' || c = '\n' || c = '\r' || c = '\x0b' || c = '\x0c'

/-- Python `str.strip()` : drop whitespace from both ends. -/
def pyStrip (s : List Char) : List Char :=
  ((s.dropWhile isPySpace).reverse.dropWhile isPySpace).reverse

/-- Helper for `splitNl`: accumulate the current line (reversed). -/
def splitNlAux (cur : List Char) : List Char → List (List Char)
  | [] => [cur.reverse]
  | c :: t => if c = '\n' then cur.reverse :: splitNlAux [] t else splitNlAux (c :: cur) t

/-- Python `text.split('\n')`. -/
def splitNl (s : List Char) : List (List Char) := splitNlAux [] s

/-- Python `sub in s` (substring test). -/
def containsSub (hay pat : List Char) : Bool :=
  match hay with
  | [] => pat.isEmpty
  | _ :: t => pat.isPrefixOf hay || containsSub t pat

/-- Python `s.find(sub)` : index of the first occurrence, `none` if absent. -/
def pyFind (hay pat : List Char) : Option Nat :=
  match hay with
  | [] => if pat.isEmpty then some 0 else none
  | c :: t => if pat.isPrefixOf (c :: t) then some 0 else (pyFind t pat).map (· + 1)

/-- Case-insensitive literal match (pattern given lower-case, consecutive chars);
returns `true` when `pat` is a prefix of `cs` up to ASCII case. -/
def ciPrefix (pat : List Char) (cs : List Char) : Bool :=
  match pat, cs with
  | [], _ => true
  | _ :: _, [] => false
  | p :: ps, c :: t => p = c.toLower && ciPrefix ps t

/-- Python `\w` (ASCII subset). -/
def isWordChar (c : Char) : Bool := c.isAlpha || c.isDigit || c = '_'

/-! ## parser.py : `_parse_table_row`

The money regex is `\$?\s*(\d{1,3}(?:,\d{3})*(?:\.\d{2})?)`, scanned with
`re.findall`.  Every quantifier here is effectively deterministic (the parts
after `\d{1,3}` are all optional), so a direct greedy scanner is faithful. -/

/-- Greedy `(?:,\d{3})*` : as many full `,ddd` groups as possible. -/
def commaGroups : Nat → List Char → (List Char × List Char)
  | 0, cs => ([], cs)
  | f + 1, cs =>
    match cs with
    | ',' :: a :: b :: c :: t =>
      if a.isDigit && b.isDigit && c.isDigit then
        let (g, r) := commaGroups f t
        (',' :: a :: b :: c :: g, r)
      else ([], cs)
    | _ => ([], cs)

/-- Optional `(?:\.\d{2})?` : a dot followed by exactly two digits. -/
def fracPart : List Char → (List Char × List Char)
  | '.' :: a :: b :: t =>
    if a.isDigit && b.isDigit then (['.', a, b], t) else ([], '.' :: a :: b :: t)
  | cs => ([], cs)

/-- Try to match `\$?\s*(\d{1,3}(?:,\d{3})*(?:\.\d{2})?)` at the head of `cs`;
returns the captured group and the remainder after the whole match. -/
def matchMoneyAt (cs : List Char) : Option (List Char × List Char) :=
  let cs1 := match cs with | '$' :: t => t | _ => cs
  let cs2 := cs1.dropWhile isPySpace
  let ds := cs2.takeWhile Char.isDigit
  if ds.isEmpty then none
  else
    let d1 := ds.take 3
    let rest0 := cs2.drop d1.length
    let (grps, rest1) := commaGroups (rest0.length + 1) rest0
    let (frac, rest2) := fracPart rest1
    some (d1 ++ grps ++ frac, rest2)

/-- `re.findall` over the money pattern: scan left to right, emit each capture,
resume after the end of each match. -/
def findallMoney : Nat → List Char → List (List Char)
  | 0, _ => []
  | _, [] => []
  | f + 1, c :: t =>
    match matchMoneyAt (c :: t) with
    | some (cap, rest) => cap :: findallMoney f rest
    | none => findallMoney f t

/-- Decimal digits to a natural number. -/
def digitsToNat (acc : Nat) : List Char → Nat
  | [] => acc
  | c :: t => digitsToNat (acc * 10 + (c.toNat - '0'.toNat)) t

/-- `Decimal(token.replace(',', ''))`, in exact cents.  Captured tokens are
digits with optional thousands separators and an optional 2-digit fraction,
so the value is a nonnegative exact number of cents. -/
def tokenCentsNat (tok : List Char) : Nat :=
  let t := tok.filter (· ≠ ',')
  let ip := t.takeWhile (· ≠ '.')
  match t.drop ip.length with
  | '.' :: f => digitsToNat 0 ip * 100 + digitsToNat 0 f
  | _ => digitsToNat 0 ip * 100

/-- Monetary token value in cents (`Decimal`, exact). -/
def tokenCents (tok : List Char) : Int := Int.ofNat (tokenCentsNat tok)

/-- `int(float(token.replace(',', '')))` : for the nonnegative 2-decimal tokens
the pattern can capture this is truncation, i.e. cents divided by 100. -/
def tokenIntFloor (tok : List Char) : Int := Int.ofNat (tokenCentsNat tok / 100)

structure LineItem where
  description : String
  quantity : Int
  unit_price : Int
  cost : Int
deriving DecidableEq

/-- Leading `re.sub(r'^[\|\t\s]+', '', s)`. -/
def stripSeparators (s : List Char) : List Char :=
  s.dropWhile (fun c => c = '|' || c = '\t' || isPySpace c)

/-- `_parse_table_row` (parser.py 194-245): collect all money-like tokens; with
fewer than three, fail; otherwise the last three are quantity, unit price and
cost, and the description is everything before the first occurrence (Python
`str.find`) of the quantity token. -/
def parse_table_row (line : List Char) : Option LineItem :=
  let numbers := findallMoney (line.length + 1) line
  match numbers.reverse with
  | costTok :: unitTok :: qtyTok :: _ =>
    let firstPos := (pyFind line qtyTok).getD 0
    let description := stripSeparators (pyStrip (line.take firstPos))
    some { description := String.mk description
         , quantity := tokenIntFloor qtyTok
         , unit_price := tokenCents unitTok
         , cost := tokenCents costTok }
  | _ => none

/-! ## parser.py : `_parse_table` (lines 150-191) -/

/-- `re.sub(r'\s+', '', line.upper())` : the upper-cased line with all
whitespace removed. -/
def headerClean (line : List Char) : List Char :=
  (line.map Char.toUpper).filter (fun c => !isPySpace c)

/-- Header detection: the cleaned line must contain all four keywords. -/
def isHeaderLine (line : List Char) : Bool :=
  containsSub (headerClean line) "DESCRIPTION".data &&
  containsSub (headerClean line) "QUANTITY".data &&
  containsSub (headerClean line) "UNITPRICE".data &&
  containsSub (headerClean line) "COST".data

/-- Find the header row; return the lines after it (`none` when absent). -/
def linesAfterHeader : List (List Char) → Option (List (List Char))
  | [] => none
  | l :: ls => if isHeaderLine l then some ls else linesAfterHeader ls

/-- One of `subtotal`, `total`, `sub-total` matches case-insensitively at the
head of `cs` with a word boundary after it. -/
def stopWordHere (cs : List Char) : Bool :=
  let bnd : List Char → Bool := fun r => match r with | [] => true | c :: _ => !isWordChar c
  (ciPrefix "subtotal".data cs && bnd (cs.drop 8)) ||
  (ciPrefix "total".data cs && bnd (cs.drop 5)) ||
  (ciPrefix "sub-total".data cs && bnd (cs.drop 9))

/-- `re.search(r'\b(subtotal|total|sub-total)\b', line, re.IGNORECASE)` :
the flag tracks whether the previous character was a word character
(so `\b` holds exactly when it is `false`). -/
def hasTotalWordAux : Bool → List Char → Bool
  | _, [] => false
  | prevWord, c :: t =>
    (!prevWord && stopWordHere (c :: t)) || hasTotalWordAux (isWordChar c) t

def hasTotalWord (line : List Char) : Bool := hasTotalWordAux false line

/-- Row loop of `_parse_table`: parse stripped lines after the header until a
blank line or a subtotal/total line; unparseable lines are skipped. -/
def collectRows : List (List Char) → List LineItem
  | [] => []
  | l :: ls =>
    let line := pyStrip l
    if line.isEmpty || hasTotalWord line then []
    else
      match parse_table_row line with
      | some it => it :: collectRows ls
      | none => collectRows ls

/-- `_parse_table` (parser.py 150-191). -/
def parse_table (text : List Char) : List LineItem :=
  match linesAfterHeader (splitNl text) with
  | some ls => collectRows ls
  | none => []

/-! ## parser.py : `_parse_dentist_name` (lines 102-147)

Pattern `I\s*N\s*V\s*O\s*I\s*C\s*E\s+F\s*O\s*R\s*:\s*(?P<name>.+?)`
`(?=\s*D\s*E\s*S\s*C\s*R\s*I\s*P\s*T\s*I\s*O\s*N)`, `re.IGNORECASE`.
The letter gaps `\s*letter` are deterministic (a letter is never whitespace);
genuine backtracking only happens between the greedy `\s*` after the colon and
the lazy name, which the scanners below reproduce. -/

/-- Match `\s*l₁\s*l₂…` for a list of (lower-case) letters; returns the rest. -/
def matchSpacedTail (letters : List Char) (cs : List Char) : Option (List Char) :=
  match letters with
  | [] => some cs
  | l :: ls =>
    match cs.dropWhile isPySpace with
    | [] => none
    | c :: t => if c.toLower = l then matchSpacedTail ls t else none

/-- Match `I\s*N\s*V\s*O\s*I\s*C\s*E\s+F\s*O\s*R\s*:` at the head of `cs`;
returns the rest after the colon. -/
def matchInvoiceFor (cs : List Char) : Option (List Char) :=
  match cs with
  | [] => none
  | c :: t =>
    if c.toLower = 'i' then
      match matchSpacedTail ['n', 'v', 'o', 'i', 'c', 'e'] t with
      | none => none
      | some r1 =>
        match r1 with
        | [] => none
        | s :: r2 =>
          if isPySpace s then
            match r2.dropWhile isPySpace with
            | [] => none
            | f :: r4 =>
              if f.toLower = 'f' then
                match matchSpacedTail ['o', 'r'] r4 with
                | none => none
                | some r5 =>
                  match r5.dropWhile isPySpace with
                  | ':' :: r6 => some r6
                  | _ => none
              else none
          else none
    else none

/-- The lookahead `(?=\s*D\s*E\s*S\s*C\s*R\s*I\s*P\s*T\s*I\s*O\s*N)`. -/
def lookDescription (cs : List Char) : Bool :=
  match cs.dropWhile isPySpace with
  | [] => false
  | c :: t => c.toLower = 'd' && (matchSpacedTail ['e', 's', 'c', 'r', 'i', 'p', 't', 'i', 'o', 'n'] t).isSome

/-- Lazy `(?P<name>.+?)` before the lookahead: grow the name one character at a
time (never across `\n`), stopping at the first position where the lookahead
succeeds. -/
def nameScanD (fuel : Nat) (acc : List Char) (cs : List Char) : Option (List Char) :=
  match fuel, cs with
  | 0, _ => none
  | _, [] => none
  | f + 1, c :: t =>
    if c = '\n' then none
    else if lookDescription t then some (c :: acc).reverse
    else nameScanD f (c :: acc) t

/-- Greedy `\s*` before the name, backtracking from `k` consumed spaces down
to zero, each time running the lazy name scan. -/
def tryNameFromD (k : Nat) (cs : List Char) : Option (List Char) :=
  match nameScanD (cs.length + 1) [] (cs.drop k) with
  | some nm => some nm
  | none => match k with | 0 => none | k' + 1 => tryNameFromD k' cs

/-- `re.search` for the dentist pattern: leftmost start position wins. -/
def searchDentistRaw : Nat → List Char → Option (List Char)
  | 0, _ => none
  | f + 1, cs =>
    match matchInvoiceFor cs with
    | some rest =>
      match tryNameFromD (rest.takeWhile isPySpace).length rest with
      | some nm => some nm
      | none => match cs with | [] => none | _ :: t => searchDentistRaw f t
    | none => match cs with | [] => none | _ :: t => searchDentistRaw f t

/-- Step 3 of the reconstruction: `re.sub(r'([a-z])([A-Z])', r'\1 \2', s)`.
The pattern consumes both characters, but a skipped pair always starts with an
upper-case letter and so can never match; checking every adjacent pair is
therefore equivalent. -/
def camelAux (p : Char) : List Char → List Char
  | [] => []
  | c :: t =>
    if p.isLower && c.isUpper then ' ' :: c :: camelAux c t else c :: camelAux c t

def camelSplit : List Char → List Char
  | [] => []
  | c :: t => c :: camelAux c t

/-- `re.sub(r'\s+', ' ', s)` : collapse whitespace runs to single spaces. -/
def collapseWsAux (prevWs : Bool) : List Char → List Char
  | [] => []
  | c :: t =>
    if isPySpace c then
      if prevWs then collapseWsAux true t else ' ' :: collapseWsAux true t
    else c :: collapseWsAux false t

def collapseWs (s : List Char) : List Char := collapseWsAux false s

/-- The reconstruction performed on the captured span (parser.py 125-147):
`strip()`, then `replace(' ', '')` (spaces only!), then a space after every
period, then a space at each lower-to-upper transition, then whitespace-run
collapsing and a final strip. -/
def dentistClean (raw : List Char) : List Char :=
  let s0 := pyStrip raw
  let s1 := s0.filter (· ≠ ' ')
  let s2 := s1.flatMap (fun c => if c = '.' then ['.', ' '] else [c])
  let s3 := camelSplit s2
  pyStrip (collapseWs s3)

/-- `_parse_dentist_name` (parser.py 102-147). -/
def parse_dentist_name (text : List Char) : Option String :=
  (searchDentistRaw (text.length + 1) text).map (fun raw => String.mk (dentistClean raw))

/-- The reconstruction algorithm as the specification words it: (a) strip ALL
whitespace from the span; (b) a space after every period; (c) a space at every
lower-to-upper transition; (d) collapse whitespace runs and trim.  Stated only
for comparison with `dentistClean`, which is translated from the code. -/
def specNameReconstruction (raw : List Char) : List Char :=
  let s1 := raw.filter (fun c => !isPySpace c)
  let s2 := s1.flatMap (fun c => if c = '.' then ['.', ' '] else [c])
  let s3 := camelSplit s2
  pyStrip (collapseWs s3)

/-! ## parser.py : `_parse_patient_and_date` (lines 68-99)

Pattern `Patient:\s*(?P<name>.+?),\s*Due\s*(?P<date>\d{1,2}/\d{1,2}/\d{4})`,
`re.MULTILINE | re.IGNORECASE` (no `^`/`$`, so MULTILINE is inert), followed by
`datetime.strptime(date_str, '%m/%d/%Y')`. -/

/-- Calendar date (what a successfully parsed `datetime` carries here). -/
structure Date where
  year : Nat
  month : Nat
  day : Nat
deriving DecidableEq

def isLeapYear (y : Nat) : Bool := y % 4 = 0 && (y % 100 ≠ 0 || y % 400 = 0)

def daysInMonth (m y : Nat) : Nat :=
  if m = 2 then (if isLeapYear y then 29 else 28)
  else if m = 4 || m = 6 || m = 9 || m = 11 then 30
  else 31

/-- `datetime.strptime(_, '%m/%d/%Y')` accepts exactly the real calendar dates
with year 1-9999. -/
def validDate (m d y : Nat) : Bool :=
  1 ≤ m && m ≤ 12 && 1 ≤ d && d ≤ daysInMonth m y && 1 ≤ y && y ≤ 9999

def digitVal (c : Char) : Nat := c.toNat - '0'.toNat

/-- `\d{1,2}/` : one or two digits (greedy) followed by a slash; returns the
value and the rest after the slash. -/
def matchNumSlash (cs : List Char) : Option (Nat × List Char) :=
  match cs with
  | [] => none
  | a :: rest =>
    if !a.isDigit then none
    else
      match rest with
      | [] => none
      | b :: rest2 =>
        if b.isDigit then
          match rest2 with
          | '/' :: t => some (10 * digitVal a + digitVal b, t)
          | _ => none
        else if b = '/' then some (digitVal a, rest2)
        else none

/-- `\d{4}` : exactly four digits (more may follow; the regex is unanchored). -/
def match4Digits (cs : List Char) : Option (Nat × List Char) :=
  match cs with
  | a :: b :: c :: d :: t =>
    if a.isDigit && b.isDigit && c.isDigit && d.isDigit then
      some (digitVal a * 1000 + digitVal b * 100 + digitVal c * 10 + digitVal d, t)
    else none
  | _ => none

/-- `,\s*Due\s*\d{1,2}/\d{1,2}/\d{4}` (case-insensitive `Due`) right after the
candidate name; returns the month/day/year digits. -/
def matchAfterName (cs : List Char) : Option (Nat × Nat × Nat) :=
  match cs with
  | ',' :: r1 =>
    match r1.dropWhile isPySpace with
    | d :: u :: e :: r3 =>
      if d.toLower = 'd' && u.toLower = 'u' && e.toLower = 'e' then
        match matchNumSlash (r3.dropWhile isPySpace) with
        | some (m, r5) =>
          match matchNumSlash r5 with
          | some (dd, r6) =>
            match match4Digits r6 with
            | some (y, _) => some (m, dd, y)
            | none => none
          | none => none
        | none => none
      else none
    | _ => none
  | _ => none

/-- Lazy `(?P<name>.+?)` : grow the name (never across `\n`) until the rest of
the pattern matches. -/
def nameScanP (fuel : Nat) (acc : List Char) (cs : List Char) :
    Option (List Char × (Nat × Nat × Nat)) :=
  match fuel, cs with
  | 0, _ => none
  | _, [] => none
  | f + 1, c :: t =>
    if c = '\n' then none
    else
      match matchAfterName t with
      | some md => some ((c :: acc).reverse, md)
      | none => nameScanP f (c :: acc) t

/-- Greedy `\s*` after `Patient:`, backtracking from `k` spaces down to zero. -/
def tryNameFromP (k : Nat) (cs : List Char) : Option (List Char × (Nat × Nat × Nat)) :=
  match nameScanP (cs.length + 1) [] (cs.drop k) with
  | some r => some r
  | none => match k with | 0 => none | k' + 1 => tryNameFromP k' cs

/-- `re.search` for the patient pattern: leftmost `Patient:` occurrence whose
continuation matches wins. -/
def searchPatient : Nat → List Char → Option (List Char × (Nat × Nat × Nat))
  | 0, _ => none
  | f + 1, cs =>
    let hd :=
      if ciPrefix "patient:".data cs then
        let rest := cs.drop 8
        tryNameFromP (rest.takeWhile isPySpace).length rest
      else none
    match hd with
    | some r => some r
    | none => match cs with | [] => none | _ :: t => searchPatient f t

inductive ParseErr
  | dentistNotFound
  | patientOrDateNotFound
  | invalidDate
  | noLineItems
deriving DecidableEq

/-- `_parse_patient_and_date` (parser.py 68-99): first regex match, then strict
`%m/%d/%Y` validation of the captured date (an invalid calendar date is an
error even if a valid match occurs later in the text). -/
def parse_patient_and_date (text : List Char) : Except ParseErr (String × Date) :=
  match searchPatient (text.length + 1) text with
  | none => .error .patientOrDateNotFound
  | some (nameRaw, (m, d, y)) =>
    if validDate m d y then .ok (String.mk (pyStrip nameRaw), ⟨y, m, d⟩)
    else .error .invalidDate

/-! ## parser.py : `parse_invoice` (lines 12-65) -/

structure ParsedInvoice where
  dentist_name : String
  date_due : Date
  patient_name : String
  total_units : Int
  unit_price : Option Int
  alloys_extras_cost : Int
  total_cost : Int
deriving DecidableEq

/-- `_compute_alloys_extras` (parser.py 269-287): sum of `cost` over the line
items from index 1 on. -/
def compute_alloys_extras (items : List LineItem) : Int :=
  (items.drop 1).foldl (fun acc it => acc + it.cost) 0

/-- `parse_invoice` (parser.py 12-65): dentist name, then patient/date, then
the table; an empty table is a hard error; `total_units` is fixed at 1,
`unit_price` is the first row's unit price, and
`total_cost = unit_price + alloys_extras_cost`. -/
def parse_invoice (text : List Char) : Except ParseErr ParsedInvoice :=
  match parse_dentist_name text with
  | none => .error .dentistNotFound
  | some dn =>
    match parse_patient_and_date text with
    | .error e => .error e
    | .ok (pn, dd) =>
      match parse_table text with
      | [] => .error .noLineItems
      | it0 :: rest =>
        let unit_price := it0.unit_price
        let alloys := compute_alloys_extras (it0 :: rest)
        .ok { dentist_name := dn
            , date_due := dd
            , patient_name := pn
            , total_units := 1
            , unit_price := some unit_price
            , alloys_extras_cost := alloys
            , total_cost := unit_price + alloys }

/-! ## writer.py : `COLUMN_HEADERS`, `_write_row`, `write_xlsx`, `_sort_by_date`

A worksheet data row (physical rows 2..) is a list of cells.  Monetary cells
are exact cents (the `Decimal -> float -> Decimal(str(...))` round trip in the
source preserves the numeric value at ledger magnitudes, and `Decimal`
equality is numeric, so key comparison is cents comparison). -/

inductive Cell
  | date (d : Date)
  | text (s : String)
  | intCell (n : Int)
  | num (cents : Int)
  | formula (f : String)
  | empty
deriving DecidableEq

/-- writer.py 16-23. -/
def COLUMN_HEADERS : List String :=
  ["Date Due", "Patient Name", "Total Units", "Unit Price", "Alloys/Extras Cost", "Total Cost"]

/-- The hidden helper formula written to column G (writer.py 146-150). -/
def formulaFor (rowIdx : Nat) : String :=
  let r := toString rowIdx
  "=IF(C" ++ r ++ "*(D" ++ r ++ "+E" ++ r ++ ")=0,\"\",C" ++ r ++ "*(D" ++ r ++ "+E" ++ r ++ "))"

/-- `_write_row` (writer.py 123-150): columns A-G for one record, where
`rowIdx` is the physical (1-based, header included) worksheet row number. -/
def write_row (rowIdx : Nat) (r : ParsedInvoice) : List Cell :=
  [ Cell.date r.date_due
  , Cell.text r.patient_name
  , Cell.intCell r.total_units
  , (match r.unit_price with | some v => Cell.num v | none => Cell.empty)
  , Cell.num r.alloys_extras_cost
  , Cell.num r.total_cost
  , Cell.formula (formulaFor rowIdx) ]

/-- Python truthiness of a cell value (`if date_val and name_val and total_val`):
`None` and empty strings and numeric zero are falsy. -/
def cellTruthy : Cell → Bool
  | .date _ => true
  | .text s => s ≠ ""
  | .intCell n => n ≠ 0
  | .num c => c ≠ 0
  | .formula f => f ≠ ""
  | .empty => false

def padNat (width n : Nat) : String :=
  let s := toString n
  (String.mk (List.replicate (width - s.length) '0')) ++ s

/-- `date_due.strftime('%Y-%m-%d')`. -/
def isoDateStr (d : Date) : String :=
  padNat 4 d.year ++ "-" ++ padNat 2 d.month ++ "-" ++ padNat 2 d.day

/-- `str(value)` for the date column when it is not a `datetime`; numeric cells
use a canonical decimal rendering in place of Python `str` (never reached by
rows this system writes, whose date cells are dates). -/
def cellKeyStr : Cell → String
  | .date d => isoDateStr d
  | .text s => s
  | .intCell n => toString n
  | .num c => toString c
  | .formula f => f
  | .empty => ""

/-- `Decimal(str(total_val))` of a total cell, as exact cents. -/
def cellCents : Cell → Int
  | .num c => c
  | .intCell n => 100 * n
  | _ => 0

structure MergeKey where
  dateStr : String
  name : String
  cents : Int
deriving DecidableEq

/-- Row cells read by the merge loop (columns 1, 2 and 6). -/
def rowDateCell (row : List Cell) : Cell := row.headD Cell.empty

def rowNameCell (row : List Cell) : Cell := (row.drop 1).headD Cell.empty

def rowTotalCell (row : List Cell) : Cell := (row.drop 5).headD Cell.empty

/-- The lookup entry of an existing row (writer.py 78-95): skipped whenever any
of the three cells is falsy (note that a 0.0 total or an empty name is falsy). -/
def rowKeyOf (row : List Cell) : Option MergeKey :=
  if cellTruthy (rowDateCell row) && cellTruthy (rowNameCell row) &&
     cellTruthy (rowTotalCell row) then
    some ⟨cellKeyStr (rowDateCell row), cellKeyStr (rowNameCell row),
          cellCents (rowTotalCell row)⟩
  else none

/-- `existing_rows` : key -> worksheet list index (later rows override). -/
def buildLookup (sheet : List (List Cell)) : List (MergeKey × Nat) :=
  sheet.enum.foldl
    (fun acc p => match rowKeyOf p.2 with
                  | some k => acc ++ [(k, p.1)]
                  | none => acc)
    []

def lookupKey (lk : List (MergeKey × Nat)) (k : MergeKey) : Option Nat :=
  (lk.reverse.find? (fun p => decide (p.1 = k))).map (fun p => p.2)

/-- The natural key of an incoming record (writer.py 99-100). -/
def keyOfRecord (r : ParsedInvoice) : MergeKey :=
  ⟨isoDateStr r.date_due, r.patient_name, r.total_cost⟩

/-- One iteration of the update-or-append loop of `write_xlsx` (writer.py
97-109): overwrite the row the (pre-built) lookup names, else append.  List
index `i` corresponds to physical worksheet row `i + 2`. -/
def upsertOne (lk : List (MergeKey × Nat)) (sheet : List (List Cell))
    (r : ParsedInvoice) : List (List Cell) :=
  match lookupKey lk (keyOfRecord r) with
  | some i => sheet.set i (write_row (i + 2) r)
  | none => sheet ++ [write_row (sheet.length + 2) r]

/-- The whole loop; the lookup is built once, before the loop, exactly as in
the source. -/
def upsertAll (lk : List (MergeKey × Nat)) (sheet : List (List Cell)) :
    List ParsedInvoice → List (List Cell)
  | [] => sheet
  | r :: rs => upsertAll lk (upsertOne lk sheet r) rs

/-- Sort key: a date cell sorts by calendar order, anything else as
`datetime.max` (strictly above every real date). -/
inductive SortKey
  | onDate (n : Nat)
  | top
deriving DecidableEq

def sortKeyLe : SortKey → SortKey → Bool
  | .onDate a, .onDate b => a ≤ b
  | .onDate _, .top => true
  | .top, .onDate _ => false
  | .top, .top => true

def rowSortKey (row : List Cell) : SortKey :=
  match rowDateCell row with
  | .date d => .onDate (d.year * 10000 + d.month * 100 + d.day)
  | _ => .top

def rowLe (a b : List Cell) : Prop := sortKeyLe (rowSortKey a) (rowSortKey b) = true

instance : DecidableRel rowLe := fun a b =>
  inferInstanceAs (Decidable (sortKeyLe (rowSortKey a) (rowSortKey b) = true))

/-- `_sort_by_date` (writer.py 153-176): collect the rows whose date cell is
truthy, sort them stably ascending by the date key (Python `list.sort` is
stable; `insertionSort` is the stable sort with the same key order), and write
them back over the leading physical rows.  Physical rows beyond the kept count
retain their previous contents. -/
def sort_by_date (sheet : List (List Cell)) : List (List Cell) :=
  List.insertionSort rowLe (sheet.filter (fun row => cellTruthy (rowDateCell row))) ++
    sheet.drop (sheet.filter (fun row => cellTruthy (rowDateCell row))).length

/-- The record-set transformation performed by `write_xlsx` (writer.py 50-120):
upsert every new record into the existing sheet, then sort by date. -/
def write_xlsx (sheet : List (List Cell)) (rows : List ParsedInvoice) : List (List Cell) :=
  sort_by_date (upsertAll (buildLookup sheet) sheet rows)

/-! ## report_generator.py : `remove_ligatures` (lines 21-44)

The ligature replacement loop; the trailing `unicodedata.normalize('NFC', _)`
is outside the claim's normalizer (NFC neither produces nor consumes the
ligature code points and is itself idempotent). -/

def ligature_map : List (Char × List Char) :=
  [ ('ﬀ', ['f', 'f'])
  , ('ﬁ', ['f', 'i'])
  , ('ﬂ', ['f', 'l'])
  , ('ﬃ', ['f', 'f', 'i'])
  , ('ﬄ', ['f', 'f', 'l'])
  , ('ﬅ', ['f', 't'])
  , ('ﬆ', ['s', 't']) ]

/-- `text.replace(c, rep)` for a single-character pattern. -/
def replaceChar (c : Char) (rep : List Char) (s : List Char) : List Char :=
  s.flatMap (fun x => if x = c then rep else [x])

/-- One pass over the whole table, in insertion order. -/
def foldRepl (m : List (Char × List Char)) (s : List Char) : List Char :=
  m.foldl (fun acc p => replaceChar p.1 p.2 acc) s

/-- The replacement loop of `remove_ligatures`. -/
def remove_ligatures (s : List Char) : List Char := foldRepl ligature_map s

/-! ## Sample inputs used by concrete witnesses -/

/-- A complete invoice text on which every extractor succeeds. -/
def sampleInvoice : List Char :=
  ("INVOICE FOR: Ab DESCRIPTION QUANTITY UNITPRICE COST\nCrown 1 200.00 200.00\nRebate 1 20.00 20.00\nTotal 220.00\nPatient: Jane Doe, Due 3/15/2024").data

/-- The record `parse_invoice` produces for `sampleInvoice`. -/
def sampleRecord : ParsedInvoice :=
  ⟨"Ab", ⟨2024, 3, 15⟩, "Jane Doe", 1, some 20000, 2000, 22000⟩

/-- An invoice with dentist and patient/date but no table header. -/
def sampleNoItems : List Char :=
  ("INVOICE FOR: Ab DESCRIPTION\nPatient: J, Due 1/2/2024").data

/-- Ledger records dated 2024-03-15, 2024-03-01, 2024-03-10 (in that order). -/
def demoRecords : List ParsedInvoice :=
  [ ⟨"", ⟨2024, 3, 15⟩, "A", 1, some 10000, 0, 10000⟩
  , ⟨"", ⟨2024, 3, 1⟩, "B", 1, some 10000, 0, 10000⟩
  , ⟨"", ⟨2024, 3, 10⟩, "C", 1, some 10000, 0, 10000⟩ ]

/-! ## Helper lemmas -/

theorem isPrefixOf_iff (p : List Char) :
    ∀ l : List Char, p.isPrefixOf l = true ↔ ∃ q, l = p ++ q := by
  induction p with
  | nil =>
    intro l
    simp [List.isPrefixOf]
  | cons a as ih =>
    intro l
    cases l with
    | nil => simp [List.isPrefixOf]
    | cons b bs =>
      simp only [List.isPrefixOf, Bool.and_eq_true, beq_iff_eq, ih bs, List.cons_append,
        List.cons.injEq]
      constructor
      · rintro ⟨rfl, q, rfl⟩
        exact ⟨q, rfl, rfl⟩
      · rintro ⟨q, rfl, rfl⟩
        exact ⟨rfl, q, rfl⟩

theorem containsSub_iff (pat : List Char) :
    ∀ hay : List Char, containsSub hay pat = true ↔ ∃ p q, hay = p ++ pat ++ q := by
  intro hay
  induction hay with
  | nil =>
    simp only [containsSub, List.isEmpty_iff]
    constructor
    · rintro rfl
      exact ⟨[], [], rfl⟩
    · rintro ⟨p, q, hpq⟩
      rcases List.append_eq_nil.mp hpq.symm with ⟨h2, -⟩
      exact (List.append_eq_nil.mp h2).2
  | cons c t ih =>
    simp only [containsSub, Bool.or_eq_true, isPrefixOf_iff, ih]
    constructor
    · rintro (⟨q, hq⟩ | ⟨p, q, hq⟩)
      · exact ⟨[], q, by simpa using hq⟩
      · exact ⟨c :: p, q, by simp [hq]⟩
    · rintro ⟨p, q, hq⟩
      cases p with
      | nil => exact Or.inl ⟨q, by simpa using hq⟩
      | cons x p2 =>
        rw [List.cons_append, List.cons_append] at hq
        injection hq with h1 h2
        exact Or.inr ⟨p2, q, by simpa using h2⟩

theorem foldl_cost_eq_sum (l : List LineItem) :
    ∀ a : Int, l.foldl (fun acc it => acc + it.cost) a = a + (l.map LineItem.cost).sum := by
  induction l with
  | nil => intro a; simp
  | cons x t ih =>
    intro a
    simp only [List.foldl_cons, List.map_cons, List.sum_cons, ih]
    ring

theorem mem_replaceChar {x c : Char} {rep s : List Char}
    (h : x ∈ replaceChar c rep s) : x ∈ rep ∨ (x ∈ s ∧ x ≠ c) := by
  induction s with
  | nil => simp [replaceChar] at h
  | cons a t ih =>
    simp only [replaceChar, List.flatMap_cons] at h
    rcases List.mem_append.mp h with h1 | h2
    · by_cases hac : a = c
      · rw [if_pos hac] at h1
        exact Or.inl h1
      · rw [if_neg hac] at h1
        rcases List.mem_singleton.mp h1 with rfl
        exact Or.inr ⟨List.mem_cons_self _ _, hac⟩
    · rcases ih h2 with h3 | ⟨h4, h5⟩
      · exact Or.inl h3
      · exact Or.inr ⟨List.mem_cons_of_mem _ h4, h5⟩

theorem not_mem_replaceChar_self {c : Char} {rep s : List Char} (h : c ∉ rep) :
    c ∉ replaceChar c rep s := by
  intro hmem
  rcases mem_replaceChar hmem with h1 | ⟨-, h2⟩
  · exact h h1
  · exact h2 rfl

theorem replaceChar_id {c : Char} {rep s : List Char} (h : c ∉ s) :
    replaceChar c rep s = s := by
  induction s with
  | nil => rfl
  | cons a t ih =>
    have hac : a ≠ c := fun hv => h (hv ▸ List.mem_cons_self _ _)
    simp only [replaceChar, List.flatMap_cons, if_neg hac]
    have := ih (fun hv => h (List.mem_cons_of_mem _ hv))
    simp only [replaceChar] at this
    simp [this]

theorem not_mem_foldRepl {x : Char} :
    ∀ (m : List (Char × List Char)) (s : List Char),
      x ∉ s → (∀ p ∈ m, x ∉ p.2) → x ∉ foldRepl m s := by
  intro m
  induction m with
  | nil => intro s hs _; simpa [foldRepl] using hs
  | cons p rest ih =>
    intro s hs hm
    have h1 : x ∉ replaceChar p.1 p.2 s := by
      intro hmem
      rcases mem_replaceChar hmem with h2 | ⟨h3, -⟩
      · exact hm p (List.mem_cons_self _ _) h2
      · exact hs h3
    have h4 : ∀ q ∈ rest, x ∉ q.2 := fun q hq => hm q (List.mem_cons_of_mem _ hq)
    have := ih (replaceChar p.1 p.2 s) h1 h4
    simpa [foldRepl] using this

theorem key_not_mem_foldRepl :
    ∀ (m : List (Char × List Char)) (s : List Char),
      (∀ p ∈ m, ∀ q ∈ m, q.1 ∉ p.2) → ∀ q ∈ m, q.1 ∉ foldRepl m s := by
  intro m
  induction m with
  | nil => intro s _ q hq; exact absurd hq (List.not_mem_nil q)
  | cons p rest ih =>
    intro s hH q hq
    have hexp : foldRepl (p :: rest) s = foldRepl rest (replaceChar p.1 p.2 s) := rfl
    rw [hexp]
    rcases List.mem_cons.mp hq with rfl | hq2
    · apply not_mem_foldRepl rest
      · exact not_mem_replaceChar_self
          (hH q (List.mem_cons_self _ _) q (List.mem_cons_self _ _))
      · intro r hr
        exact hH r (List.mem_cons_of_mem _ hr) q (List.mem_cons_self _ _)
    · exact ih (replaceChar p.1 p.2 s)
        (fun a ha b hb =>
          hH a (List.mem_cons_of_mem _ ha) b (List.mem_cons_of_mem _ hb))
        q hq2

theorem foldRepl_id :
    ∀ (m : List (Char × List Char)) (s : List Char),
      (∀ p ∈ m, p.1 ∉ s) → foldRepl m s = s := by
  intro m
  induction m with
  | nil => intro s _; rfl
  | cons p rest ih =>
    intro s hs
    have h1 : replaceChar p.1 p.2 s = s := replaceChar_id (hs p (List.mem_cons_self _ _))
    have hexp : foldRepl (p :: rest) s = foldRepl rest (replaceChar p.1 p.2 s) := rfl
    rw [hexp, h1]
    exact ih s (fun q hq => hs q (List.mem_cons_of_mem _ hq))

/-! ## Claim theorems -/

/-- Claim C1 (code_bug evidence): the row parser reads the parenthesized token
of `"Rebate 1 110.00 (110.00)"` as the unsigned value +110.00 (11000 cents);
no parenthesis detection exists, so the cost is not negated. -/
theorem claim1_paren_cost_positive :
    parse_table_row ("Rebate 1 110.00 (110.00)".data) =
      some { description := "Rebate", quantity := 1, unit_price := 11000, cost := 11000 } := by
  rfl

/-- Claim C9: the ligature replacement pass of `remove_ligatures` is
idempotent: no replacement string reintroduces any ligature code point, so a
second pass finds nothing to replace. -/
theorem claim9_remove_ligatures_idempotent (s : List Char) :
    remove_ligatures (remove_ligatures s) = remove_ligatures s := by
  apply foldRepl_id
  intro p hp
  exact key_not_mem_foldRepl ligature_map s (by decide) p hp

/-- Claim C10: whenever `_parse_table_row` returns a line item, its quantity,
unit price and cost are all nonnegative — the numeric-token pattern admits no
sign and no parenthesis detection. -/
theorem claim10_row_fields_nonneg (line : List Char) (it : LineItem)
    (h : parse_table_row line = some it) :
    0 ≤ it.quantity ∧ 0 ≤ it.unit_price ∧ 0 ≤ it.cost := by
  simp only [parse_table_row] at h
  split at h
  · injection h with h
    subst h
    exact ⟨Int.ofNat_nonneg _, Int.ofNat_nonneg _, Int.ofNat_nonneg _⟩
  · exact absurd h (by simp)

/-- Witness for C10 at the concrete row
`"Bruxzir #3 Shade C1 1 $ 110.00 $ 110.00"`. -/
theorem claim10_witness :
    0 ≤ ({ description := "Bruxzir #3 Shade C", quantity := 1, unit_price := 11000,
           cost := 11000 } : LineItem).quantity ∧
    0 ≤ ({ description := "Bruxzir #3 Shade C", quantity := 1, unit_price := 11000,
           cost := 11000 } : LineItem).unit_price ∧
    0 ≤ ({ description := "Bruxzir #3 Shade C", quantity := 1, unit_price := 11000,
           cost := 11000 } : LineItem).cost :=
  claim10_row_fields_nonneg ("Bruxzir #3 Shade C1 1 $ 110.00 $ 110.00".data)
    { description := "Bruxzir #3 Shade C", quantity := 1, unit_price := 11000, cost := 11000 }
    (by rfl)

/-- Claim C7 (counterexample): the writer does not emit the 3-column schema.
`COLUMN_HEADERS` has six entries, a written row has seven cells, and the
seventh is a live spreadsheet formula. -/
theorem claim7_counterexample :
    COLUMN_HEADERS.length = 6 ∧
    (write_row 2 (⟨"Dr. X", ⟨2024, 3, 1⟩, "Jane", 1, some 20000, 0, 20000⟩ : ParsedInvoice)).length = 7 ∧
    (write_row 2 (⟨"Dr. X", ⟨2024, 3, 1⟩, "Jane", 1, some 20000, 0, 20000⟩ : ParsedInvoice)).getD 6 Cell.empty
      = Cell.formula "=IF(C2*(D2+E2)=0,\"\",C2*(D2+E2))" :=
  ⟨rfl, rfl, by rfl⟩

/-- Claim C7 (amended): every written row has exactly the six ledger columns
plus the hidden seventh helper cell holding the live formula for its physical
row, and the dentist name is never persisted (the written cells are invariant
under changing it). -/
theorem claim7_amended (idx : Nat) (r : ParsedInvoice) (dn : String) :
    (write_row idx r).length = 7 ∧
    (write_row idx r).getD 6 Cell.empty = Cell.formula (formulaFor idx) ∧
    write_row idx { r with dentist_name := dn } = write_row idx r :=
  ⟨rfl, rfl, rfl⟩

/-- Claim C3 (code_bug evidence): merging a record whose total cost is 0.00
twice appends a duplicate — the upsert index skips rows whose total cell is
falsy (Python `0.0`), so the second merge does not find the first row. -/
theorem claim3_zero_total_not_idempotent :
    (write_xlsx [] [⟨"", ⟨2024, 3, 1⟩, "X", 1, some 0, 0, 0⟩]).length = 1 ∧
    (write_xlsx (write_xlsx [] [⟨"", ⟨2024, 3, 1⟩, "X", 1, some 0, 0, 0⟩])
        [⟨"", ⟨2024, 3, 1⟩, "X", 1, some 0, 0, 0⟩]).length = 2 := by
  exact ⟨rfl, rfl⟩

/-- Claim C2: whenever `parse_invoice` succeeds, the returned record satisfies
`total_cost = unit_price + alloys_extras_cost` exactly, where the unit price is
the first line item's and the alloys/extras cost is the sum of `cost` over the
items from index 1 on. -/
theorem claim2_total_invariant (text : List Char) (r : ParsedInvoice)
    (h : parse_invoice text = .ok r) :
    r.total_cost = r.unit_price.getD 0 + r.alloys_extras_cost ∧
    ∃ it0 rest, parse_table text = it0 :: rest ∧
      r.unit_price = some it0.unit_price ∧
      r.alloys_extras_cost = (rest.map LineItem.cost).sum ∧
      r.total_cost = it0.unit_price + (rest.map LineItem.cost).sum := by
  simp only [parse_invoice] at h
  split at h
  · exact absurd h (by simp)
  · split at h
    · exact absurd h (by simp)
    · split at h
      · exact absurd h (by simp)
      · rename_i it0 rest heq
        injection h with h
        subst h
        have halloys : compute_alloys_extras (it0 :: rest) = (rest.map LineItem.cost).sum := by
          simp [compute_alloys_extras, foldl_cost_eq_sum]
        refine ⟨by simp [halloys], it0, rest, heq, rfl, halloys, by simp [halloys]⟩

set_option maxRecDepth 100000 in
/-- Witness for C2 on a complete concrete invoice. -/
theorem claim2_witness :
    sampleRecord.total_cost = sampleRecord.unit_price.getD 0 + sampleRecord.alloys_extras_cost ∧
    ∃ it0 rest, parse_table sampleInvoice = it0 :: rest ∧
      sampleRecord.unit_price = some it0.unit_price ∧
      sampleRecord.alloys_extras_cost = (rest.map LineItem.cost).sum ∧
      sampleRecord.total_cost = it0.unit_price + (rest.map LineItem.cost).sum :=
  claim2_total_invariant sampleInvoice sampleRecord (by rfl)

/-- Claim C4: `parse_invoice` never succeeds with an empty line-item list;
when the earlier extractors succeed and the table is empty, the failure is
precisely the no-line-items error. -/
theorem claim4_empty_table_fails :
    (∀ (text : List Char) (r : ParsedInvoice),
        parse_invoice text = .ok r → parse_table text ≠ []) ∧
    (∀ text : List Char,
        (∃ dn, parse_dentist_name text = some dn) →
        (∃ v, parse_patient_and_date text = .ok v) →
        parse_table text = [] → parse_invoice text = .error .noLineItems) := by
  constructor
  · intro text r h hempty
    simp only [parse_invoice] at h
    split at h
    · exact absurd h (by simp)
    · split at h
      · exact absurd h (by simp)
      · split at h
        · exact absurd h (by simp)
        · rename_i heq
          rw [hempty] at heq
          exact absurd heq (by simp)
  · rintro text ⟨dn, hdn⟩ ⟨⟨pn, dd⟩, hpv⟩ hempty
    simp only [parse_invoice, hdn, hpv, hempty]

/-- Witness for C4: dentist and patient extract, but there is no table. -/
theorem claim4_witness :
    parse_invoice sampleNoItems = .error .noLineItems :=
  claim4_empty_table_fails.2 sampleNoItems ⟨"Ab", by rfl⟩
    ⟨("J", ⟨2024, 1, 2⟩), by rfl⟩ (by rfl)

/-- Claim C8 (code_bug evidence): the dentist-name reconstruction removes only
space characters, not all whitespace; on a span containing a tab the code
yields `"ab cd"` while the specified four-step algorithm (which strips all
whitespace, as the code's own comment also says) yields `"abcd"`. -/
theorem claim8_tab_divergence :
    parse_dentist_name ("INVOICE FOR: ab\tcdDESCRIPTION".data) = some "ab cd" ∧
    specNameReconstruction ("ab\tcd".data) = "abcd".data := by
  exact ⟨rfl, rfl⟩

/-- Claim C6: a line is recognized as the table header exactly when its
whitespace-stripped, upper-cased content contains all four keywords as
substrings; the fully letter-spaced header is accepted; and a text with no
header line yields an empty item list. -/
theorem claim6_header_recognition :
    (∀ line : List Char, isHeaderLine line = true ↔
       ((∃ p q, headerClean line = p ++ "DESCRIPTION".data ++ q) ∧
        (∃ p q, headerClean line = p ++ "QUANTITY".data ++ q) ∧
        (∃ p q, headerClean line = p ++ "UNITPRICE".data ++ q) ∧
        (∃ p q, headerClean line = p ++ "COST".data ++ q))) ∧
    isHeaderLine ("D E S C R I P T I O N   Q U A N T I T Y   U N I T P R I C E   C O S T".data) = true ∧
    (∀ text : List Char,
       (∀ l ∈ splitNl text, isHeaderLine l = false) → parse_table text = []) := by
  refine ⟨?_, by decide, ?_⟩
  · intro line
    simp only [isHeaderLine, Bool.and_eq_true, containsSub_iff]
    tauto
  · intro text hnone
    have hl : ∀ lines : List (List Char),
        (∀ l ∈ lines, isHeaderLine l = false) → linesAfterHeader lines = none := by
      intro lines
      induction lines with
      | nil => intro _; rfl
      | cons l ls ih =>
        intro hno
        have h0 : isHeaderLine l = false := hno l (List.mem_cons_self _ _)
        simp only [linesAfterHeader, h0, Bool.false_eq_true, if_false]
        exact ih (fun x hx => hno x (List.mem_cons_of_mem _ hx))
    simp [parse_table, hl (splitNl text) hnone]

/-- Witness for C6: a text with no header line parses to no items. -/
theorem claim6_witness : parse_table ("hello".data) = [] :=
  claim6_header_recognition.2.2 ("hello".data) (by decide)

theorem sortKeyLe_total (x y : SortKey) : sortKeyLe x y = true ∨ sortKeyLe y x = true := by
  cases x <;> cases y <;> simp [sortKeyLe] <;> omega

theorem sortKeyLe_trans {x y z : SortKey} (h1 : sortKeyLe x y = true)
    (h2 : sortKeyLe y z = true) : sortKeyLe x z = true := by
  cases x <;> cases y <;> cases z <;> simp [sortKeyLe] at * <;> omega

instance : IsTotal (List Cell) rowLe := ⟨fun _ _ => sortKeyLe_total _ _⟩

instance : IsTrans (List Cell) rowLe := ⟨fun _ _ _ => sortKeyLe_trans⟩

theorem upsertAll_dateTruthy (lk : List (MergeKey × Nat)) :
    ∀ (rs : List ParsedInvoice) (sheet : List (List Cell)),
      (∀ row ∈ sheet, cellTruthy (rowDateCell row) = true) →
      ∀ row ∈ upsertAll lk sheet rs, cellTruthy (rowDateCell row) = true := by
  intro rs
  induction rs with
  | nil => intro sheet hs row hrow; exact hs row hrow
  | cons r rest ih =>
    intro sheet hs row hrow
    refine ih (upsertOne lk sheet r) ?_ row hrow
    intro row2 h2
    unfold upsertOne at h2
    cases hc : lookupKey lk (keyOfRecord r) with
    | some i =>
      rw [hc] at h2
      rcases List.mem_or_eq_of_mem_set h2 with h3 | rfl
      · exact hs row2 h3
      · rfl
    | none =>
      rw [hc] at h2
      rcases List.mem_append.mp h2 with h3 | h4
      · exact hs row2 h3
      · rcases List.mem_singleton.mp h4 with rfl
        rfl

/-- Claim C5: after every merge over a sheet of dated rows the result is
sorted ascending by the date key (rows whose date cell is not a parsed date
carry the maximal key, hence sort last), and merging records dated
2024-03-15, 2024-03-01, 2024-03-10 into an empty ledger yields them in
ascending date order. -/
theorem claim5_sorted_merge :
    (∀ (sheet : List (List Cell)) (rows : List ParsedInvoice),
       (∀ row ∈ sheet, cellTruthy (rowDateCell row) = true) →
       List.Sorted rowLe (write_xlsx sheet rows)) ∧
    (write_xlsx [] demoRecords).map rowDateCell =
      [Cell.date ⟨2024, 3, 1⟩, Cell.date ⟨2024, 3, 10⟩, Cell.date ⟨2024, 3, 15⟩] := by
  constructor
  · intro sheet rows hs
    have hU := upsertAll_dateTruthy (buildLookup sheet) rows sheet hs
    show List.Sorted rowLe (sort_by_date (upsertAll (buildLookup sheet) sheet rows))
    unfold sort_by_date
    rw [List.filter_eq_self.mpr hU, List.drop_length, List.append_nil]
    exact List.sorted_insertionSort rowLe _
  · rfl

/-- Witness for C5: the sortedness statement applied to the empty ledger and
the three demo records. -/
theorem claim5_witness : List.Sorted rowLe (write_xlsx [] demoRecords) :=
  claim5_sorted_merge.1 [] demoRecords (fun row h => absurd h (List.not_mem_nil row))
